import Mathlib

/-!
Verification development for the crypto-strategy backtester.

The repository's core (src/strategy.rs, src/analyzer.rs, src/trade.rs) is shallowly
embedded here.  IEEE-754 doubles are modelled by exact rationals; the only places the
source computes an irrational value (the square root inside rolling_std, and the
log/exp geometric mean inside determine_risk_cap) are modelled over the reals, so the
definitions touching them are noncomputable.  The f64 special value +infinity produced
by the analyzer's profit factor is modelled by an explicit inductive constructor.
Vectors indexed by day are modelled as lists indexed through getD, mirroring the Rust
slice indexing; dates are modelled as integers.  Division follows the Lean convention
x / 0 = 0; the NaN the source would produce for a degenerate window (stop_lookback = 0
makes the Rust mean of an empty slice NaN) is outside the model, as are all other IEEE
special values.
-/

namespace CryptoStrategy

/-- Evaluation helper: indexing into a list built as a map over List.range. -/
theorem getD_map_range {α : Type _} (n : ℕ) (f : ℕ → α) (j : ℕ) (d : α) :
    ((List.range n).map f).getD j d = if j < n then f j else d := by
  by_cases h : j < n
  · rw [if_pos h, List.getD_eq_getElem?_getD, List.getElem?_map, List.getElem?_range h]
    rfl
  · rw [if_neg h]
    apply List.getD_eq_default
    simpa using Nat.le_of_not_lt h

/-! ## Indicator library (src/strategy.rs lines 53-118) -/

/-- Running sum maintained by the rolling_ma loop in strategy.rs: at step i the loop has
executed `sum += x[i]` and, when `i >= w`, `sum -= x[i-w]`. -/
def maSum (x : ℕ → ℚ) (w : ℕ) : ℕ → ℚ
  | 0 => x 0
  | i + 1 => maSum x w i + x (i + 1) - (if w ≤ i + 1 then x (i + 1 - w) else 0)

/-- Simple moving average with left truncation, from rolling_ma in strategy.rs:
index i is defined (Some) exactly when i+1 >= w, with value sum/w from the running sum;
a window of 0 yields all None. -/
def rolling_ma (x : List ℚ) (w : ℕ) : List (Option ℚ) :=
  if w = 0 then List.replicate x.length none
  else
    (List.range x.length).map (fun i =>
      if w ≤ i + 1 then some (maSum (fun j => x.getD j 0) w i / w) else none)

/-- Mirror of true_range in strategy.rs. -/
def true_range (high low prev_close : ℚ) : ℚ :=
  max |high - low| (max |high - prev_close| |low - prev_close|)

/-- True-range series built by rolling_atr in strategy.rs: day 0 uses |high-low| when both
are present and the literal 0.0 otherwise; later days fall back to the absolute
close-to-close move when high/low are absent. -/
def trueRangeAt (high low : List (Option ℚ)) (close : List ℚ) (i : ℕ) : ℚ :=
  if i = 0 then
    match high.getD 0 none, low.getD 0 none with
    | some h, some l => |h - l|
    | _, _ => 0
  else
    match high.getD i none, low.getD i none with
    | some h, some l => true_range h l (close.getD (i - 1) 0)
    | _, _ => |close.getD i 0 - close.getD (i - 1) 0|

/-- Mirror of rolling_atr in strategy.rs: trailing mean of the true-range series over the
slice trs[i+1-w ..= i], defined when i+1 >= w. -/
def rolling_atr (high low : List (Option ℚ)) (close : List ℚ) (w : ℕ) : List (Option ℚ) :=
  (List.range close.length).map (fun i =>
    if w ≤ i + 1 then
      some ((((List.range' (i + 1 - w) w).map (trueRangeAt high low close)).sum) / w)
    else none)

/-- Mirror of rolling_std in strategy.rs: population-style standard deviation of the
trailing window returns[i+1-w ..= i]; the variance denominator is max(len, 1.0) as in
the source. The square root forces a real-valued result. -/
noncomputable def rolling_std (returns : List ℚ) (w : ℕ) : List (Option ℝ) :=
  (List.range returns.length).map (fun i =>
    if w ≤ i + 1 then
      some (Real.sqrt
        (((((List.range' (i + 1 - w) w).map (fun j => returns.getD j 0)).map
              (fun v =>
                (v - (((List.range' (i + 1 - w) w).map (fun j => returns.getD j 0)).sum /
                      (((List.range' (i + 1 - w) w).map (fun j => returns.getD j 0)).length : ℚ))) ^ 2)).sum /
            max ((((List.range' (i + 1 - w) w).map (fun j => returns.getD j 0)).length : ℚ)) 1 : ℚ) : ℝ))
    else none)

/-- Daily close-to-close returns, from the once/chain/tuple_windows construction in
strategy.rs execute: element j is the return from day j to day j+1 (length n-1). -/
def dailyRets (close : List ℚ) : List ℚ :=
  (List.range (close.length - 1)).map (fun j =>
    (close.getD (j + 1) 0 - close.getD j 0) / close.getD j 0)

/-! ## The running sum of rolling_ma equals the trailing-window sum -/

theorem sum_range'_shift (x : ℕ → ℚ) (a k : ℕ) :
    ((List.range' (a + 1) (k + 1)).map x).sum
      = ((List.range' a (k + 1)).map x).sum + x (a + 1 + k) - x a := by
  have h1 := List.range'_1_concat (a + 1) k
  have h2 : List.range' a (k + 1) = a :: List.range' (a + 1) k := List.range'_succ a k 1
  rw [h1, h2]
  simp [List.sum_append]
  ring

theorem maSum_eq_window (x : ℕ → ℚ) (w : ℕ) (hw : 1 ≤ w) :
    ∀ i, maSum x w i = ((List.range' (i + 1 - w) (min (i + 1) w)).map x).sum := by
  intro i
  induction i with
  | zero =>
      have h1 : 0 + 1 - w = 0 := by omega
      have h2 : min (0 + 1) w = 1 := by omega
      rw [h1, h2]
      simp [maSum, List.range']
  | succ i ih =>
      by_cases hcase : w ≤ i + 1
      · have hmin1 : min (i + 1) w = w := by omega
        have hmin2 : min (i + 1 + 1) w = w := by omega
        have ha : i + 1 + 1 - w = (i + 1 - w) + 1 := by omega
        have hshift := sum_range'_shift x (i + 1 - w) (w - 1)
        rw [show w - 1 + 1 = w by omega, show i + 1 - w + 1 + (w - 1) = i + 1 by omega] at hshift
        rw [maSum, if_pos hcase, ih, hmin1, hmin2, ha, hshift]
      · have hmin1 : min (i + 1) w = i + 1 := by omega
        have hmin2 : min (i + 1 + 1) w = i + 1 + 1 := by omega
        have h1 : i + 1 - w = 0 := by omega
        have h2 : i + 1 + 1 - w = 0 := by omega
        have hconcat : List.range' 0 (i + 1 + 1) = List.range' 0 (i + 1) ++ [0 + (i + 1)] :=
          List.range'_1_concat _ _
        rw [maSum, if_neg hcase, ih, hmin1, hmin2, h1, h2, hconcat]
        simp [List.sum_append]

/-- Pointwise description of rolling_ma for a positive window. -/
theorem rolling_ma_getD (x : List ℚ) (w : ℕ) (hw : 1 ≤ w) (i : ℕ) (hi : i < x.length) :
    (rolling_ma x w).getD i none =
      if i + 1 < w then none
      else some ((((List.range' (i + 1 - w) w).map (fun j => x.getD j 0)).sum) / w) := by
  have hw0 : w ≠ 0 := by omega
  rw [rolling_ma, if_neg hw0, getD_map_range _ _ _ _, if_pos hi]
  by_cases h : w ≤ i + 1
  · rw [if_pos h, if_neg (by omega)]
    rw [maSum_eq_window _ _ hw i]
    have : min (i + 1) w = w := by omega
    rw [this]
  · rw [if_neg h, if_pos (by omega)]

/-! ## Signal engine (src/strategy.rs lines 196-317) -/

/-- Strategy parameters after the CLI default-filling of main.rs; every field the core
reads is present (the unwrap() calls in execute never fail). -/
structure Params where
  ma_short : ℕ
  ma_long : ℕ
  min_signals : ℕ
  short_alts : Bool
  btc_hedge : ℚ
  stop_lookback : ℕ
  atr_mult : ℚ
  vol_mult : ℚ

/-- Relative-strength line rs = a_close / btc_close, elementwise. -/
def rsLine (aClose btcClose : List ℚ) : List ℚ :=
  List.zipWith (fun a b => a / b) aClose btcClose

/-- Mirror of trend_bull: a_ma_l[i].map(close > l).unwrap_or(false). -/
def trendBullAt (P : Params) (aClose : List ℚ) (i : ℕ) : Bool :=
  (((rolling_ma aClose P.ma_long).getD i none).map
    (fun l => decide (l < aClose.getD i 0))).getD false

/-- Mirror of mom_bull: requires both MAs defined, then ma_short > ma_long. -/
def momBullAt (P : Params) (aClose : List ℚ) (i : ℕ) : Bool :=
  match (rolling_ma aClose P.ma_short).getD i none, (rolling_ma aClose P.ma_long).getD i none with
  | some s, some l => decide (l < s)
  | _, _ => false

/-- Mirror of rs_bull: both RS MAs defined, then rs_ma_short > rs_ma_long. -/
def rsBullAt (P : Params) (aClose btcClose : List ℚ) (i : ℕ) : Bool :=
  match (rolling_ma (rsLine aClose btcClose) P.ma_short).getD i none,
      (rolling_ma (rsLine aClose btcClose) P.ma_long).getD i none with
  | some s, some l => decide (l < s)
  | _, _ => false

/-- Bearish counterpart of trend_bull (strict inverse test, close < ma_long). -/
def trendBearAt (P : Params) (aClose : List ℚ) (i : ℕ) : Bool :=
  (((rolling_ma aClose P.ma_long).getD i none).map
    (fun l => decide (aClose.getD i 0 < l))).getD false

/-- Bearish counterpart of mom_bull (ma_short < ma_long). -/
def momBearAt (P : Params) (aClose : List ℚ) (i : ℕ) : Bool :=
  match (rolling_ma aClose P.ma_short).getD i none, (rolling_ma aClose P.ma_long).getD i none with
  | some s, some l => decide (s < l)
  | _, _ => false

/-- Bearish counterpart of rs_bull (rs_ma_short < rs_ma_long). -/
def rsBearAt (P : Params) (aClose btcClose : List ℚ) (i : ℕ) : Bool :=
  match (rolling_ma (rsLine aClose btcClose) P.ma_short).getD i none,
      (rolling_ma (rsLine aClose btcClose) P.ma_long).getD i none with
  | some s, some l => decide (s < l)
  | _, _ => false

/-- Mirror of score: the number of true entries among the three bull booleans. -/
def scoreAt (P : Params) (aClose btcClose : List ℚ) (i : ℕ) : ℕ :=
  [trendBullAt P aClose i, momBullAt P aClose i, rsBullAt P aClose btcClose i].count true

/-- Mirror of the raw-weight branch ladder in execute (strategy.rs lines 269-289). -/
def rawWeightAt (P : Params) (aClose btcClose : List ℚ) (i : ℕ) : ℚ :=
  if scoreAt P aClose btcClose i = 3 then 1
  else if P.min_signals ≤ scoreAt P aClose btcClose i ∧ rsBullAt P aClose btcClose i = true then
    1 / 2
  else if P.short_alts = true then
    if trendBearAt P aClose i = true ∧ momBearAt P aClose i = true ∧
        rsBearAt P aClose btcClose i = true then -1
    else 0
  else 0

/-- Mirror of the stop-level computation (strategy.rs lines 292-301): the ATR branch is
kept only when the ATR is strictly positive; otherwise for i > 0 the prior-day rolling
return standard deviation is used; otherwise none. -/
noncomputable def stopAt (P : Params) (aClose : List ℚ) (aHigh aLow : List (Option ℚ))
    (i : ℕ) : Option ℝ :=
  ((((rolling_atr aHigh aLow aClose P.stop_lookback).getD i none).filter
      (fun a => decide (0 < a))).map
    (fun a => ((aClose.getD i 0 : ℚ) : ℝ) - (P.atr_mult : ℝ) * (a : ℝ))).orElse
    (fun _ =>
      if 0 < i then
        ((rolling_std (dailyRets aClose) P.stop_lookback).getD (i - 1) none).map
          (fun sd => ((aClose.getD i 0 : ℚ) : ℝ) * (1 - (P.vol_mult : ℝ) * sd))
      else none)

/-- Mirror of DailySignal (strategy.rs lines 120-135); the date column is dropped (days
are indexed by position) and the stop level is real-valued because of the standard
deviation fallback. -/
structure DailySignal where
  price : ℚ
  ma_short : Option ℚ
  ma_long : Option ℚ
  rs : Option ℚ
  rs_ma_short : Option ℚ
  rs_ma_long : Option ℚ
  trend_bull : Bool
  mom_bull : Bool
  rs_bull : Bool
  score : ℕ
  raw_weight : ℚ
  stop_level : Option ℝ

instance : Inhabited DailySignal :=
  ⟨⟨0, none, none, none, none, none, false, false, false, 0, 0, none⟩⟩

/-- The per-day signal record built by execute for one asset. -/
noncomputable def signalAt (P : Params) (aClose : List ℚ) (aHigh aLow : List (Option ℚ))
    (btcClose : List ℚ) (i : ℕ) : DailySignal where
  price := aClose.getD i 0
  ma_short := (rolling_ma aClose P.ma_short).getD i none
  ma_long := (rolling_ma aClose P.ma_long).getD i none
  rs := some ((rsLine aClose btcClose).getD i 0)
  rs_ma_short := (rolling_ma (rsLine aClose btcClose) P.ma_short).getD i none
  rs_ma_long := (rolling_ma (rsLine aClose btcClose) P.ma_long).getD i none
  trend_bull := trendBullAt P aClose i
  mom_bull := momBullAt P aClose i
  rs_bull := rsBullAt P aClose btcClose i
  score := scoreAt P aClose btcClose i
  raw_weight := rawWeightAt P aClose btcClose i
  stop_level := stopAt P aClose aHigh aLow i

/-- The full per-asset signal vector (one record per aligned day). -/
noncomputable def signalsFor (P : Params) (aClose : List ℚ) (aHigh aLow : List (Option ℚ))
    (btcClose : List ℚ) : List DailySignal :=
  (List.range aClose.length).map (signalAt P aClose aHigh aLow btcClose)

/-- Mirror of btc_mkt_bear (strategy.rs lines 199-206). -/
def btcBear (P : Params) (btcClose : List ℚ) (i : ℕ) : Bool :=
  match (rolling_ma btcClose P.ma_short).getD i none, (rolling_ma btcClose P.ma_long).getD i none with
  | some s, some l => decide (btcClose.getD i 0 < l ∧ s < l)
  | _, _ => false

@[simp] theorem signalAt_price (P : Params) (aC : List ℚ) (aH aL : List (Option ℚ))
    (bC : List ℚ) (i : ℕ) : (signalAt P aC aH aL bC i).price = aC.getD i 0 := rfl

@[simp] theorem signalAt_score (P : Params) (aC : List ℚ) (aH aL : List (Option ℚ))
    (bC : List ℚ) (i : ℕ) : (signalAt P aC aH aL bC i).score = scoreAt P aC bC i := rfl

@[simp] theorem signalAt_raw_weight (P : Params) (aC : List ℚ) (aH aL : List (Option ℚ))
    (bC : List ℚ) (i : ℕ) : (signalAt P aC aH aL bC i).raw_weight = rawWeightAt P aC bC i := rfl

@[simp] theorem signalAt_stop_level (P : Params) (aC : List ℚ) (aH aL : List (Option ℚ))
    (bC : List ℚ) (i : ℕ) : (signalAt P aC aH aL bC i).stop_level = stopAt P aC aH aL i := rfl

@[simp] theorem signalAt_rs_bull (P : Params) (aC : List ℚ) (aH aL : List (Option ℚ))
    (bC : List ℚ) (i : ℕ) : (signalAt P aC aH aL bC i).rs_bull = rsBullAt P aC bC i := rfl

theorem signalsFor_getD (P : Params) (aC : List ℚ) (aH aL : List (Option ℚ))
    (bC : List ℚ) (j : ℕ) (hj : j < aC.length) :
    (signalsFor P aC aH aL bC).getD j default = signalAt P aC aH aL bC j := by
  rw [signalsFor, getD_map_range, if_pos hj]

/-! ## Series aligner (src/strategy.rs lines 137-156) -/

/-- Mirror of intersect_dates: each series' dates go into an ordered set, the sets are
folded with intersection, and the result is read out in ascending order.  Dates are
modelled as integers. -/
def intersect_dates (series : List (List ℤ)) : List ℤ :=
  match series.map (fun s => s.toFinset) with
  | [] => []
  | first :: rest => (rest.foldl (fun b s => b ∩ s) first).sort (fun a b => a ≤ b)

/-! ## Portfolio simulator (src/strategy.rs lines 370-416) -/

/-- Effective weight of one asset on day i (strategy.rs lines 375-384): yesterday's
signal is stopped out when its stop level is defined and today's price is strictly
below it; otherwise the raw weight clamped to be non-negative. -/
noncomputable def effWeight (sigs : List DailySignal) (i : ℕ) : ℚ :=
  match (sigs.getD (i - 1) default).stop_level with
  | some stp =>
      if (((sigs.getD i default).price : ℚ) : ℝ) < stp then 0
      else max (sigs.getD (i - 1) default).raw_weight 0
  | none => max (sigs.getD (i - 1) default).raw_weight 0

/-- The candidate long positions on day i: assets paired with their effective weight,
keeping only strictly positive weights (strategy.rs lines 373-388). -/
noncomputable def longsAt (assets : List (List DailySignal)) (i : ℕ) :
    List (List DailySignal × ℚ) :=
  (assets.map (fun a => (a, effWeight a i))).filter (fun p => decide (0 < p.2))

/-- Sum of the long weights on day i. -/
noncomputable def longSum (assets : List (List DailySignal)) (i : ℕ) : ℚ :=
  ((longsAt assets i).map Prod.snd).sum

/-- The normalized daily weights map (strategy.rs lines 390-395): empty unless the long
sum is positive, in which case each long weight is divided by the sum. -/
noncomputable def weightsAt (assets : List (List DailySignal)) (i : ℕ) :
    List (List DailySignal × ℚ) :=
  if 0 < longSum assets i then
    (longsAt assets i).map (fun p => (p.1, p.2 / longSum assets i))
  else []

/-- Normalized weight of one asset on day i, as a function (zero when there are no
longs); used to state per-asset facts about the weights map. -/
noncomputable def normWeight (assets : List (List DailySignal)) (i : ℕ)
    (a : List DailySignal) : ℚ :=
  if 0 < longSum assets i then effWeight a i / longSum assets i else 0

/-- Close-to-close return of one asset from day i-1 to day i. -/
def assetRet (a : List DailySignal) (i : ℕ) : ℚ :=
  ((a.getD i default).price - (a.getD (i - 1) default).price) / (a.getD (i - 1) default).price

/-- BTC hedge contribution on day i (strategy.rs lines 397-403): active when the hedge
weight is positive and yesterday's BTC state was bear. -/
def hedgeRet (P : Params) (btcClose : List ℚ) (i : ℕ) : ℚ :=
  if 0 < P.btc_hedge ∧ btcBear P btcClose (i - 1) = true then
    -P.btc_hedge * ((btcClose.getD i 0 - btcClose.getD (i - 1) 0) / btcClose.getD (i - 1) 0)
  else 0

/-- Daily portfolio return (strategy.rs lines 405-411): hedge contribution plus the sum
of normalized weight times asset return over the weights map. -/
noncomputable def portRet (P : Params) (btcClose : List ℚ)
    (assets : List (List DailySignal)) (i : ℕ) : ℚ :=
  hedgeRet P btcClose i + ((weightsAt assets i).map (fun p => p.2 * assetRet p.1 i)).sum

/-- The compounding equity curve (strategy.rs lines 370 and 413): equity[0] = 1 and each
later day multiplies by one plus that day's portfolio return. -/
noncomputable def equity (P : Params) (btcClose : List ℚ)
    (assets : List (List DailySignal)) : ℕ → ℚ
  | 0 => 1
  | i + 1 => equity P btcClose assets i * (1 + portRet P btcClose assets (i + 1))

/-! ## Performance analyzer (src/analyzer.rs lines 62-154) -/

/-- The two columns of the analyzer's SignalRow that StrategyAnalysis::new actually
reads for its return and profit-factor computation. -/
structure SignalRow where
  close : ℚ
  raw_weight : ℚ

instance : Inhabited SignalRow := ⟨⟨0, 0⟩⟩

/-- The per-trading-day returns accumulated by StrategyAnalysis::new (analyzer.rs lines
67-87): days with |raw_weight| > 1e-6 contribute raw_weight * (close - close_0) /
close_0, in order. -/
def analysisReturns (signals : List SignalRow) : List ℚ :=
  (signals.filter (fun s => decide (1 / 1000000 < |s.raw_weight|))).map
    (fun s => s.raw_weight * (s.close - (signals.headD default).close) /
      (signals.headD default).close)

/-- Model of the f64 profit factor, which is +infinity when there are no losses. -/
inductive PFValue where
  | fin (q : ℚ)
  | inf
deriving DecidableEq

/-- Mirror of the profit-factor computation (analyzer.rs lines 113-119): sum of positive
returns divided by the absolute sum of negative returns, +infinity when the latter is
zero. -/
def profitFactor (returns : List ℚ) : PFValue :=
  if |(returns.filter (fun x => decide (x < 0))).sum| = 0 then PFValue.inf
  else
    PFValue.fin ((returns.filter (fun x => decide (0 < x))).sum /
      |(returns.filter (fun x => decide (x < 0))).sum|)

/-- The profit factor StrategyAnalysis::new stores for a signal history. -/
def analysisProfitFactor (signals : List SignalRow) : PFValue :=
  profitFactor (analysisReturns signals)

/-! ## Risk-cap derivation (src/trade.rs lines 394-520) -/

/-- The backtest statistics determine_risk_cap reads through the StrategyAnalysis
getters.  All fields are modelled as reals; the f64 specials lose no generality here
because every adjustment below maps any out-of-breakpoint input (including an infinite
profit factor, which passes the topmost test) into the same finite multiplier set.
The sharpe field models the sharpe_ratio getter. -/
structure RiskStats where
  sharpe : ℝ
  max_drawdown : ℝ
  win_rate : ℝ
  total_return : ℝ
  trading_days : ℕ
  profit_factor : ℝ

/-- The market values determine_risk_cap reads from ComputedValues. -/
structure ComputedValues where
  volatility : ℝ
  rs_ma7 : ℝ
  rs_ma30 : ℝ
  current_price : ℝ
  ma30 : ℝ
  atr_14 : ℝ

/-- Factor 1: Sharpe-ratio adjustment (trade.rs lines 403-410). -/
noncomputable def sharpeAdj (s : ℝ) : ℝ :=
  if 3 ≤ s then 1.5 else if 2 ≤ s then 1.3 else if 1.5 ≤ s then 1.1
  else if 1 ≤ s then 1.0 else if 0.5 ≤ s then 0.8 else 0.6

/-- Factor 2: drawdown adjustment (trade.rs lines 413-419). -/
noncomputable def drawdownAdj (d : ℝ) : ℝ :=
  if d ≤ 0.02 then 1.2 else if d ≤ 0.05 then 1.0 else if d ≤ 0.10 then 0.8
  else if d ≤ 0.20 then 0.6 else 0.4

/-- Factor 3: win-rate adjustment (trade.rs lines 422-428). -/
noncomputable def winRateAdj (w : ℝ) : ℝ :=
  if 0.80 ≤ w then 1.2 else if 0.70 ≤ w then 1.1 else if 0.60 ≤ w then 1.0
  else if 0.50 ≤ w then 0.9 else 0.7

/-- Factor 4: volatility adjustment (trade.rs lines 431-437). -/
noncomputable def volatilityAdj (v : ℝ) : ℝ :=
  if v ≤ 20 then 1.1 else if v ≤ 40 then 1.0 else if v ≤ 60 then 0.9
  else if v ≤ 80 then 0.8 else 0.6

/-- Factor 5: return-magnitude adjustment (trade.rs lines 440-446). -/
noncomputable def returnMagnitudeAdj (r : ℝ) : ℝ :=
  if r ≤ 10 then 1.1 else if r ≤ 50 then 1.0 else if r ≤ 200 then 0.9
  else if r ≤ 1000 then 0.8 else 0.6

/-- Factor 6: sample-size adjustment (trade.rs lines 449-455). -/
def dataConfidenceAdj (d : ℕ) : ℝ :=
  if 20 ≤ d then 1.1 else if 15 ≤ d then 1.0 else if 10 ≤ d then 0.9
  else if 5 ≤ d then 0.8 else 0.7

/-- Factor 7: profit-factor adjustment (trade.rs lines 458-465). -/
noncomputable def profitFactorAdj (p : ℝ) : ℝ :=
  if 5 ≤ p then 1.2 else if 3 ≤ p then 1.1 else if 2 ≤ p then 1.0
  else if 1.5 ≤ p then 0.9 else if 1 ≤ p then 0.8 else 0.6

/-- Factor 8: relative-strength-spread adjustment (trade.rs lines 468-474). -/
noncomputable def rsSpreadAdj (r : ℝ) : ℝ :=
  if 0.1 ≤ r then 1.1 else if 0.05 ≤ r then 1.0 else if 0.02 ≤ r then 0.9 else 0.8

/-- Factor 9: price-extension adjustment (trade.rs lines 477-484). -/
noncomputable def extensionAdj (e : ℝ) : ℝ :=
  if e ≤ 1.05 then 1.1 else if e ≤ 1.10 then 1.0 else if e ≤ 1.20 then 0.9
  else if e ≤ 1.30 then 0.8 else 0.6

/-- Factor 10: ATR-risk adjustment (trade.rs lines 487-494). -/
noncomputable def atrRiskAdj (a : ℝ) : ℝ :=
  if a ≤ 0.02 then 1.1 else if a ≤ 0.05 then 1.0 else if a ≤ 0.10 then 0.9
  else if a ≤ 0.15 then 0.8 else 0.6

/-- The ten adjustment factors in source order (trade.rs lines 497-508). -/
noncomputable def riskAdjustments (stats : RiskStats) (cv : ComputedValues) : List ℝ :=
  [sharpeAdj stats.sharpe, drawdownAdj stats.max_drawdown, winRateAdj stats.win_rate,
   volatilityAdj cv.volatility, returnMagnitudeAdj stats.total_return,
   dataConfidenceAdj stats.trading_days, profitFactorAdj stats.profit_factor,
   rsSpreadAdj |cv.rs_ma7 - cv.rs_ma30|, extensionAdj (cv.current_price / cv.ma30),
   atrRiskAdj (cv.atr_14 / cv.current_price)]

/-- Mirror of f64::clamp for non-NaN inputs: if below min take min, if above max take
max, else the value itself. -/
noncomputable def rustClamp (x lo hi : ℝ) : ℝ :=
  if x < lo then lo else if hi < x then hi else x

/-- Mirror of f64::round: round half away from zero. -/
noncomputable def rustRound (y : ℝ) : ℝ :=
  if 0 ≤ y then ((⌊y + 1 / 2⌋ : ℤ) : ℝ) else ((⌈y - 1 / 2⌉ : ℤ) : ℝ)

/-- Mirror of determine_risk_cap (trade.rs lines 394-520): a 1% base risk scaled by the
geometric mean of the ten adjustments, clamped to [0.002, 0.025], then rounded to three
decimals. -/
noncomputable def determine_risk_cap (stats : RiskStats) (cv : ComputedValues) : ℝ :=
  rustRound
      (rustClamp
          (0.010 *
            Real.exp (((riskAdjustments stats cv).map Real.log).sum /
              ((riskAdjustments stats cv).length : ℝ)))
          0.002 0.025 * 1000) / 1000

/-! ## Supporting lemmas -/

theorem mem_foldl_inter (b : Finset ℤ) (l : List (Finset ℤ)) (d : ℤ) :
    d ∈ l.foldl (fun x s => x ∩ s) b ↔ d ∈ b ∧ ∀ s ∈ l, d ∈ s := by
  induction l generalizing b with
  | nil => simp
  | cons s t ih =>
      simp only [List.foldl_cons, ih, Finset.mem_inter, List.mem_cons]
      constructor
      · rintro ⟨⟨hb, hs⟩, ht⟩
        exact ⟨hb, fun u hu => by rcases hu with rfl | hu; exact hs; exact ht u hu⟩
      · rintro ⟨hb, hall⟩
        exact ⟨⟨hb, hall s (Or.inl rfl)⟩, fun u hu => hall u (Or.inr hu)⟩

/-! ## Claim C4: rolling_ma left truncation and trailing means -/

/-- C4: for every input array x and window w >= 1, rolling_ma preserves length,
rolling_ma(x, w)[i] is None exactly when i+1 < w and otherwise equals the arithmetic
mean of the trailing w elements x[i+1-w ..= i]; w = 1 gives the identity on each
element and w = len(x) leaves only the last index defined. -/
theorem claim_C4_rolling_ma (x : List ℚ) (w : ℕ) (hw : 1 ≤ w) :
    (rolling_ma x w).length = x.length ∧
    (∀ i, i < x.length →
      (rolling_ma x w).getD i none =
        if i + 1 < w then none
        else some ((((List.range' (i + 1 - w) w).map (fun j => x.getD j 0)).sum) / w)) ∧
    (∀ i, i < x.length → (rolling_ma x 1).getD i none = some (x.getD i 0)) ∧
    (∀ i, i < x.length → (((rolling_ma x x.length).getD i none).isSome ↔ i + 1 = x.length)) := by
  refine ⟨?_, ?_, ?_, ?_⟩
  · rw [rolling_ma]
    split <;> simp
  · exact fun i hi => rolling_ma_getD x w hw i hi
  · intro i hi
    have h := rolling_ma_getD x 1 le_rfl i hi
    rw [if_neg (by omega)] at h
    simpa [List.range'] using h
  · intro i hi
    have h := rolling_ma_getD x x.length (by omega) i hi
    constructor
    · intro hs
      by_contra hne
      rw [if_pos (by omega)] at h
      rw [h] at hs
      simp at hs
    · intro heq
      rw [if_neg (by omega)] at h
      rw [h]
      simp

theorem claim_C4_rolling_ma_witness :
    (1 : ℕ) ≤ 2 ∧ (rolling_ma [1, 2, 3] 2).getD 2 none = some (5 / 2) := by
  refine ⟨by norm_num, ?_⟩
  have h := (claim_C4_rolling_ma [1, 2, 3] 2 (by norm_num)).2.1 2 (by norm_num)
  norm_num [List.range'] at h
  convert h using 2

/-! ## Claim C8: intersect_dates returns exactly the common dates, sorted -/

/-- C8: for every non-empty list of input series, intersect_dates returns exactly the
dates present in every series (so it is a subset of each input and drops no common
date), in strictly ascending order (hence sorted with no duplicates). -/
theorem claim_C8_intersect_dates (series : List (List ℤ)) (hne : series ≠ []) :
    (∀ d : ℤ, d ∈ intersect_dates series ↔ ∀ s ∈ series, d ∈ s) ∧
    (intersect_dates series).Sorted (· < ·) := by
  cases series with
  | nil => exact absurd rfl hne
  | cons first rest =>
      constructor
      · intro d
        show d ∈ ((rest.map (fun s => s.toFinset)).foldl (fun b s => b ∩ s)
            first.toFinset).sort (fun a b => a ≤ b) ↔ _
        rw [Finset.mem_sort, mem_foldl_inter]
        simp only [List.mem_toFinset, List.mem_map, List.mem_cons]
        constructor
        · rintro ⟨hfirst, hall⟩ s hs
          rcases hs with rfl | hs
          · exact hfirst
          · simpa using hall s.toFinset ⟨s, hs, rfl⟩
        · rintro hall
          refine ⟨hall first (Or.inl rfl), ?_⟩
          rintro fs ⟨s, hs, rfl⟩
          simpa using hall s (Or.inr hs)
      · exact Finset.sort_sorted_lt _

theorem claim_C8_intersect_dates_witness :
    (2 : ℤ) ∈ intersect_dates [[3, 1, 2], [2, 3]] ↔
      ∀ s ∈ [[3, 1, 2], [2, 3]], (2 : ℤ) ∈ s :=
  (claim_C8_intersect_dates [[3, 1, 2], [2, 3]] (by simp)).1 2

/-! ## Claim C6: profit factor -/

/-- C6: StrategyAnalysis::new computes profit_factor as the sum of positive trading-day
returns divided by the absolute sum of negative ones, yielding the infinity marker
(never a crash or NaN) when no return is negative; on signal rows whose derived return
sequence is [0.02, -0.01, 0.03, -0.02] it equals 5/3, which is within 1e-4 of 1.6667. -/
theorem claim_C6_profit_factor :
    (∀ signals : List SignalRow, (∀ r ∈ analysisReturns signals, 0 ≤ r) →
      analysisProfitFactor signals = PFValue.inf) ∧
    analysisProfitFactor
      [⟨1, 0⟩, ⟨51 / 50, 1⟩, ⟨99 / 100, 1⟩, ⟨103 / 100, 1⟩, ⟨49 / 50, 1⟩]
      = PFValue.fin (5 / 3) ∧
    |(5 / 3 : ℚ) - 16667 / 10000| ≤ 1 / 10000 := by
  refine ⟨?_, ?_, by rw [abs_le]; constructor <;> norm_num⟩
  · intro signals hpos
    have hfil : (analysisReturns signals).filter (fun x => decide (x < 0)) = [] := by
      rw [List.filter_eq_nil_iff]
      intro a ha
      simpa using not_lt.mpr (hpos a ha)
    rw [analysisProfitFactor, profitFactor, hfil]
    simp
  · rw [analysisProfitFactor, analysisReturns]
    norm_num [List.filter, List.headD, profitFactor]
    rw [show |(3 / 100 : ℚ)| = 3 / 100 from abs_of_nonneg (by norm_num)]
    norm_num

/-- Witness instantiating the no-losses branch of C6 at a one-row history. -/
theorem claim_C6_profit_factor_witness :
    analysisProfitFactor [⟨2, 1⟩] = PFValue.inf := by
  apply claim_C6_profit_factor.1 [⟨2, 1⟩]
  intro r hr
  rw [analysisReturns] at hr
  norm_num [List.filter] at hr
  simp [hr]

/-! ## Claim C7: risk cap bounds -/

/-- C7: for every combination of input statistics and computed market values, the risk
cap produced by determine_risk_cap lies in [0.002, 0.025]; rounding to three decimals
after the clamp cannot escape the bounds. -/
theorem claim_C7_risk_cap_bounds (stats : RiskStats) (cv : ComputedValues) :
    0.002 ≤ determine_risk_cap stats cv ∧ determine_risk_cap stats cv ≤ 0.025 := by
  rw [determine_risk_cap]
  set x : ℝ := 0.010 *
    Real.exp (((riskAdjustments stats cv).map Real.log).sum /
      ((riskAdjustments stats cv).length : ℝ)) with hx
  have hclamp : (0.002 : ℝ) ≤ rustClamp x 0.002 0.025 ∧ rustClamp x 0.002 0.025 ≤ 0.025 := by
    rw [rustClamp]
    split_ifs with h1 h2
    · exact ⟨le_refl _, by norm_num⟩
    · exact ⟨by norm_num, le_refl _⟩
    · exact ⟨le_of_not_lt h1, le_of_not_lt h2⟩
  set c : ℝ := rustClamp x 0.002 0.025 with hc
  have hy1 : (2 : ℝ) ≤ c * 1000 := by nlinarith [hclamp.1]
  have hy2 : c * 1000 ≤ 25 := by nlinarith [hclamp.2]
  have hy0 : (0 : ℝ) ≤ c * 1000 := by linarith
  rw [rustRound, if_pos hy0]
  have hfl1 : (2 : ℤ) ≤ ⌊c * 1000 + 1 / 2⌋ := by
    apply Int.le_floor.mpr
    push_cast
    linarith
  have hfl2 : ⌊c * 1000 + 1 / 2⌋ ≤ 25 := by
    have h255 : ⌊(51 / 2 : ℝ)⌋ = 25 := by
      rw [Int.floor_eq_iff]
      constructor <;> norm_num
    calc ⌊c * 1000 + 1 / 2⌋ ≤ ⌊(51 / 2 : ℝ)⌋ := Int.floor_le_floor (by linarith)
      _ = 25 := h255
  constructor
  · have : (2 : ℝ) ≤ ((⌊c * 1000 + 1 / 2⌋ : ℤ) : ℝ) := by exact_mod_cast hfl1
    linarith
  · have : ((⌊c * 1000 + 1 / 2⌋ : ℤ) : ℝ) ≤ 25 := by exact_mod_cast hfl2
    linarith

/-! ## Simulator lemmas -/

/-- The main.rs defaults for the strategy subcommand. -/
def defaultParams : Params := ⟨3, 7, 2, false, 3 / 10, 14, 3, 5 / 2⟩

theorem effWeight_nonneg (sigs : List DailySignal) (i : ℕ) : 0 ≤ effWeight sigs i := by
  unfold effWeight
  split
  · split_ifs
    · exact le_refl 0
    · exact le_max_right _ _
  · exact le_max_right _ _

theorem effWeight_eq_zero_of_stop (sigs : List DailySignal) (i : ℕ) (stp : ℝ)
    (h1 : (sigs.getD (i - 1) default).stop_level = some stp)
    (h2 : (((sigs.getD i default).price : ℚ) : ℝ) < stp) : effWeight sigs i = 0 := by
  simp only [effWeight, h1]
  exact if_pos h2

theorem effWeight_of_stop_none (sigs : List DailySignal) (i : ℕ)
    (h : (sigs.getD (i - 1) default).stop_level = none) :
    effWeight sigs i = max (sigs.getD (i - 1) default).raw_weight 0 := by
  simp only [effWeight, h]

theorem longsAt_filter_sum (l : List (List DailySignal)) (S : ℚ) (i : ℕ) :
    ((((l.map (fun a => (a, effWeight a i))).filter (fun p => decide (0 < p.2))).map
        (fun p => p.2 / S * assetRet p.1 i)).sum)
      = (l.map (fun a => effWeight a i / S * assetRet a i)).sum := by
  induction l with
  | nil => simp
  | cons a t ih =>
      by_cases h : 0 < effWeight a i
      · simp [List.filter_cons, h, ih]
      · have h0 : effWeight a i = 0 := le_antisymm (not_lt.mp h) (effWeight_nonneg a i)
        simp [List.filter_cons, h, ih, h0]

/-- The daily portfolio return decomposes as the hedge contribution plus, over all
assets, the normalized weight times the asset return. -/
theorem portRet_eq_sum_normWeight (P : Params) (btcC : List ℚ)
    (assets : List (List DailySignal)) (i : ℕ) :
    portRet P btcC assets i
      = hedgeRet P btcC i + (assets.map (fun a => normWeight assets i a * assetRet a i)).sum := by
  rw [portRet, weightsAt]
  by_cases hS : 0 < longSum assets i
  · rw [if_pos hS]
    congr 1
    rw [List.map_map]
    have hcomp :
        ((fun p : List DailySignal × ℚ => p.2 * assetRet p.1 i) ∘
            fun p : List DailySignal × ℚ => (p.1, p.2 / longSum assets i))
          = fun p : List DailySignal × ℚ => p.2 / longSum assets i * assetRet p.1 i := rfl
    rw [hcomp, longsAt, longsAt_filter_sum]
    simp [normWeight, hS]
  · rw [if_neg hS]
    simp [normWeight, hS]

/-! ## Claim C9: no short asset positions in the simulator -/

/-- C9: on every simulated day, every asset's effective weight and normalized weight
are non-negative; the simulator clamps yesterday's raw weight with max(raw, 0) and the
weights map divides positive weights by their positive sum, so a raw weight of -1.0
never produces a short asset position (the hedge term is the only signed contribution
in portRet). -/
theorem claim_C9_no_short_positions (assets : List (List DailySignal)) (i : ℕ)
    (a : List DailySignal) :
    0 ≤ effWeight a i ∧ 0 ≤ normWeight assets i a := by
  refine ⟨effWeight_nonneg a i, ?_⟩
  rw [normWeight]
  split_ifs with hS
  · exact div_nonneg (effWeight_nonneg a i) (le_of_lt hS)
  · exact le_refl 0

/-! ## Claim C2: stop-out forces a zero weight and zero contribution -/

/-- C2: for every day i >= 1 and every asset, if the asset's day i-1 stop level is
defined and its day i price is strictly below it, its effective weight on day i is 0
and its term in the portfolio-return decomposition vanishes, regardless of the day i-1
raw weight. -/
theorem claim_C2_stop_out (P : Params) (btcC : List ℚ) (assets : List (List DailySignal))
    (a : List DailySignal) (i : ℕ) (stp : ℝ) (hi : 1 ≤ i) (ha : a ∈ assets)
    (hstop : (a.getD (i - 1) default).stop_level = some stp)
    (hpx : (((a.getD i default).price : ℚ) : ℝ) < stp) :
    effWeight a i = 0 ∧ normWeight assets i a = 0 ∧
    portRet P btcC assets i
      = hedgeRet P btcC i
        + (assets.map (fun b => normWeight assets i b * assetRet b i)).sum := by
  have h0 : effWeight a i = 0 := effWeight_eq_zero_of_stop a i stp hstop hpx
  refine ⟨h0, ?_, portRet_eq_sum_normWeight P btcC assets i⟩
  rw [normWeight, h0]
  simp

/-- Witness for C2 at a concrete two-day, one-asset configuration: yesterday's stop is
10, today's price is 5, yesterday's raw weight is 1. -/
theorem claim_C2_stop_out_witness :
    effWeight [⟨1, none, none, none, none, none, false, false, false, 0, 1, some 10⟩,
      ⟨5, none, none, none, none, none, false, false, false, 0, 0, none⟩] 1 = 0 ∧
    normWeight [[⟨1, none, none, none, none, none, false, false, false, 0, 1, some 10⟩,
      ⟨5, none, none, none, none, none, false, false, false, 0, 0, none⟩]] 1
      [⟨1, none, none, none, none, none, false, false, false, 0, 1, some 10⟩,
       ⟨5, none, none, none, none, none, false, false, false, 0, 0, none⟩] = 0 ∧
    portRet defaultParams [4, 4]
      [[⟨1, none, none, none, none, none, false, false, false, 0, 1, some 10⟩,
        ⟨5, none, none, none, none, none, false, false, false, 0, 0, none⟩]] 1
      = hedgeRet defaultParams [4, 4] 1
        + ([[⟨1, none, none, none, none, none, false, false, false, 0, 1, some 10⟩,
             ⟨5, none, none, none, none, none, false, false, false, 0, 0, none⟩]].map
            (fun b =>
              normWeight [[⟨1, none, none, none, none, none, false, false, false, 0, 1, some 10⟩,
                ⟨5, none, none, none, none, none, false, false, false, 0, 0, none⟩]] 1 b *
              assetRet b 1)).sum :=
  claim_C2_stop_out defaultParams [4, 4] _ _ 1 10 le_rfl (List.mem_singleton.mpr rfl)
    rfl (by norm_num)

/-! ## Claim C3 (amended): equity recurrence and guarded monotonicity -/

theorem equity_mono_aux (P : Params) (btcC : List ℚ) (assets : List (List DailySignal))
    (a : ℕ) (h0 : 0 ≤ equity P btcC assets a) :
    ∀ b, a ≤ b → (∀ j, a < j → j ≤ b → 0 ≤ portRet P btcC assets j) →
      equity P btcC assets a ≤ equity P btcC assets b ∧ 0 ≤ equity P btcC assets b := by
  intro b
  induction b with
  | zero =>
      intro hab _
      have ha0 : a = 0 := Nat.le_zero.mp hab
      subst ha0
      exact ⟨le_rfl, h0⟩
  | succ b ih =>
      intro hab hret
      by_cases hcase : a = b + 1
      · subst hcase
        exact ⟨le_rfl, h0⟩
      · have hab' : a ≤ b := by omega
        obtain ⟨h1, h2⟩ := ih hab' (fun j hj1 hj2 => hret j hj1 (by omega))
        have hr : 0 ≤ portRet P btcC assets (b + 1) := hret (b + 1) (by omega) le_rfl
        have hstep : equity P btcC assets (b + 1)
            = equity P btcC assets b * (1 + portRet P btcC assets (b + 1)) := rfl
        constructor
        · calc equity P btcC assets a ≤ equity P btcC assets b := h1
            _ ≤ equity P btcC assets b * (1 + portRet P btcC assets (b + 1)) :=
                le_mul_of_one_le_right h2 (by linarith)
            _ = equity P btcC assets (b + 1) := hstep.symm
        · rw [hstep]
          exact mul_nonneg h2 (by linarith)

/-- C3 (amended): the equity curve starts at 1 and compounds multiplicatively,
equity[i] = equity[i-1] * (1 + daily_return[i]); over any contiguous stretch of days
whose daily returns are all non-negative the equity is non-decreasing, provided equity
is non-negative on entering the stretch.  The proviso is necessary: a day whose return
is below -100 percent (for example a large adverse hedge move) makes equity negative,
after which days with positive returns decrease it further (see the counterexample). -/
theorem claim_C3_equity_amended (P : Params) (btcC : List ℚ)
    (assets : List (List DailySignal)) :
    equity P btcC assets 0 = 1 ∧
    (∀ i, 1 ≤ i →
      equity P btcC assets i
        = equity P btcC assets (i - 1) * (1 + portRet P btcC assets i)) ∧
    (∀ a b, a ≤ b → 0 ≤ equity P btcC assets a →
      (∀ j, a < j → j ≤ b → 0 ≤ portRet P btcC assets j) →
      equity P btcC assets a ≤ equity P btcC assets b) := by
  refine ⟨rfl, ?_, ?_⟩
  · intro i hi
    obtain ⟨k, rfl⟩ : ∃ k, i = k + 1 := ⟨i - 1, by omega⟩
    rw [Nat.add_sub_cancel]
    rfl
  · intro a b hab h0 hret
    exact (equity_mono_aux P btcC assets a h0 b hab hret).1

theorem portRet_nil (P : Params) (j : ℕ) : portRet P [] [] j = 0 := by
  simp [portRet, hedgeRet, weightsAt, longsAt, longSum, btcBear, rolling_ma]

/-- Witness for the amended C3 on the empty configuration, whose daily returns are all
zero. -/
theorem claim_C3_equity_amended_witness :
    equity defaultParams [] [] 0 ≤ equity defaultParams [] [] 2 := by
  apply (claim_C3_equity_amended defaultParams [] []).2.2 0 2 (by norm_num)
  · rw [show equity defaultParams [] [] 0 = 1 from rfl]
    norm_num
  · intro j _ _
    rw [portRet_nil]

/-! ## Concrete strategy runs used by counterexamples and witnesses

A 13-day run (13 >= ma_long + 10, so execute accepts it): BTC is flat at 4, dips to 2
on day 9 and pumps to 12 on day 10; the asset is flat at 1 and rallies 7, 8, 9 over the
last three days.  High/low columns are absent and stop_lookback is the default 14, so
no ATR or return-std window ever fills and every stop level is None. -/

def cexBtc : List ℚ := [4, 4, 4, 4, 4, 4, 4, 4, 4, 2, 12, 12, 12]

def cexAsset : List ℚ := [1, 1, 1, 1, 1, 1, 1, 1, 1, 1, 7, 8, 9]

def cexHigh : List (Option ℚ) := List.replicate 13 none

def cexLow : List (Option ℚ) := List.replicate 13 none

/-- Parameters ma_short=1, ma_long=2, min_signals=2, no shorting, btc_hedge=0.3,
stop_lookback=14, atr_mult=3, vol_mult=2.5. -/
def cexP : Params := ⟨1, 2, 2, false, 3 / 10, 14, 3, 5 / 2⟩

/-- Same parameters but with min_signals = 4, a value the CLI accepts unvalidated. -/
def cexP4 : Params := ⟨1, 2, 4, false, 3 / 10, 14, 3, 5 / 2⟩

noncomputable def cexSigs : List DailySignal :=
  signalsFor cexP cexAsset cexHigh cexLow cexBtc

theorem scoreAt_le_three (P : Params) (aC bC : List ℚ) (i : ℕ) :
    scoreAt P aC bC i ≤ 3 := by
  have h := List.count_le_length true
    [trendBullAt P aC i, momBullAt P aC i, rsBullAt P aC bC i]
  simpa [scoreAt] using h

/-! ## Claim C1 (amended): the raw-weight ladder -/

/-- C1 (amended): raw_weight is 1.0 when score = 3, else 0.5 when score >= min_signals
and rs_bull, else -1.0 when shorting is enabled and all three bear conditions hold,
else 0.0; score = 3 always forces raw_weight = 1.0; and, provided min_signals <= 3 (the
documented 2-of-3 / 3-of-3 range), score < min_signals forces raw_weight into
{0.0, -1.0}.  Without that proviso the last consequence fails (see the counterexample
with min_signals = 4), though score < min_signals still never yields 0.5. -/
theorem claim_C1_raw_weight_amended (P : Params) (aC : List ℚ) (aH aL : List (Option ℚ))
    (bC : List ℚ) (i : ℕ) :
    (signalAt P aC aH aL bC i).raw_weight
      = (if (signalAt P aC aH aL bC i).score = 3 then 1
         else if P.min_signals ≤ (signalAt P aC aH aL bC i).score ∧
             (signalAt P aC aH aL bC i).rs_bull = true then 1 / 2
         else if P.short_alts = true ∧ trendBearAt P aC i = true ∧
             momBearAt P aC i = true ∧ rsBearAt P aC bC i = true then -1
         else 0) ∧
    ((signalAt P aC aH aL bC i).score = 3 → (signalAt P aC aH aL bC i).raw_weight = 1) ∧
    (P.min_signals ≤ 3 → (signalAt P aC aH aL bC i).score < P.min_signals →
      (signalAt P aC aH aL bC i).raw_weight = 0 ∨
        (signalAt P aC aH aL bC i).raw_weight = -1) ∧
    ((signalAt P aC aH aL bC i).score < P.min_signals →
      (signalAt P aC aH aL bC i).raw_weight ≠ 1 / 2) := by
  simp only [signalAt_raw_weight, signalAt_score, signalAt_rs_bull]
  refine ⟨?_, ?_, ?_, ?_⟩
  · by_cases h3 : scoreAt P aC bC i = 3
    · simp [rawWeightAt, h3]
    · by_cases hm : P.min_signals ≤ scoreAt P aC bC i ∧ rsBullAt P aC bC i = true
      · simp [rawWeightAt, h3, hm]
      · by_cases hsa : P.short_alts = true
        · by_cases hb : trendBearAt P aC i = true ∧ momBearAt P aC i = true ∧
              rsBearAt P aC bC i = true
          · simp [rawWeightAt, h3, hm, hsa, hb]
          · simp [rawWeightAt, h3, hm, hsa, hb]
        · simp [rawWeightAt, h3, hm, hsa]
  · intro h3
    simp [rawWeightAt, h3]
  · intro hm3 hlt
    have h3 : ¬scoreAt P aC bC i = 3 := by omega
    have hnm : ¬(P.min_signals ≤ scoreAt P aC bC i ∧ rsBullAt P aC bC i = true) :=
      fun h => absurd h.1 (by omega)
    rw [rawWeightAt, if_neg h3, if_neg hnm]
    split_ifs <;> simp
  · intro hlt
    rw [rawWeightAt]
    split_ifs with h1 h2 h3 h4
    · norm_num
    · exact absurd h2.1 (by omega)
    · norm_num
    · norm_num
    · norm_num

/-- Counterexample to C1 as stated: with min_signals = 4 (accepted unvalidated by the
CLI), on day 10 of the concrete run the score is 3 < min_signals yet raw_weight is 1.0,
not in {0.0, -1.0}. -/
theorem claim_C1_raw_weight_counterexample :
    (signalAt cexP4 cexAsset cexHigh cexLow cexBtc 10).score = 3 ∧
    (signalAt cexP4 cexAsset cexHigh cexLow cexBtc 10).score < cexP4.min_signals ∧
    (signalAt cexP4 cexAsset cexHigh cexLow cexBtc 10).raw_weight = 1 ∧
    ¬((signalAt cexP4 cexAsset cexHigh cexLow cexBtc 10).raw_weight = 0 ∨
      (signalAt cexP4 cexAsset cexHigh cexLow cexBtc 10).raw_weight = -1) := by
  have hs : scoreAt cexP4 cexAsset cexBtc 10 = 3 := by
    norm_num [scoreAt, trendBullAt, momBullAt, rsBullAt, rsLine, rolling_ma,
      getD_map_range, maSum, cexP4, cexAsset, cexBtc]
  have hr : rawWeightAt cexP4 cexAsset cexBtc 10 = 1 := by
    rw [rawWeightAt, if_pos hs]
  refine ⟨by simp [hs], ?_, by simp [hr], by simp [hr]; norm_num⟩
  simp only [signalAt_score]
  rw [hs]
  norm_num [cexP4]

/-- Witness for the amended C1: with the default min_signals = 2 on a flat day the
score is 0 and the raw weight lands in {0, -1}. -/
theorem claim_C1_raw_weight_witness :
    (signalAt cexP cexAsset cexHigh cexLow cexBtc 5).raw_weight = 0 ∨
    (signalAt cexP cexAsset cexHigh cexLow cexBtc 5).raw_weight = -1 := by
  apply (claim_C1_raw_weight_amended cexP cexAsset cexHigh cexLow cexBtc 5).2.2.1
  · norm_num [cexP]
  · simp only [signalAt_score]
    have hs : scoreAt cexP cexAsset cexBtc 5 = 0 := by
      norm_num [scoreAt, trendBullAt, momBullAt, rsBullAt, rsLine, rolling_ma,
        getD_map_range, maSum, cexP, cexAsset, cexBtc]
    rw [hs]
    norm_num [cexP]

/-! ## Stop-level helper lemmas -/

theorem rolling_atr_getD_none (high low : List (Option ℚ)) (close : List ℚ) (w j : ℕ)
    (h : j + 1 < w) : (rolling_atr high low close w).getD j none = none := by
  rw [rolling_atr, getD_map_range]
  split_ifs with h1 h2
  · omega
  · rfl
  · rfl

theorem rolling_std_getD_none (rets : List ℚ) (w j : ℕ) (h : j + 1 < w) :
    (rolling_std rets w).getD j none = none := by
  rw [rolling_std, getD_map_range]
  split_ifs with h1 h2
  · omega
  · rfl
  · rfl

/-- When neither the ATR window nor the return-std window has filled, there is no stop. -/
theorem stopAt_none_small (P : Params) (aC : List ℚ) (aH aL : List (Option ℚ)) (i : ℕ)
    (h : i + 1 < P.stop_lookback) : stopAt P aC aH aL i = none := by
  rw [stopAt, rolling_atr_getD_none _ _ _ _ _ h, rolling_std_getD_none _ _ _ (by omega)]
  simp [Option.filter, Option.orElse]

/-! ## Claim C5: the stop-level case split -/

/-- C5: the stop level is close_i - atr_mult * ATR_i whenever the rolling ATR at day i
is defined and strictly positive; otherwise, when i > 0 and the rolling return standard
deviation at index i-1 is defined, it is close_i * (1 - vol_mult * std); otherwise it
is undefined (in particular at day 0 with no usable ATR). -/
theorem claim_C5_stop_level (P : Params) (aC : List ℚ) (aH aL : List (Option ℚ))
    (bC : List ℚ) (i : ℕ) :
    (∀ a : ℚ, (rolling_atr aH aL aC P.stop_lookback).getD i none = some a → 0 < a →
      (signalAt P aC aH aL bC i).stop_level
        = some (((aC.getD i 0 : ℚ) : ℝ) - ((P.atr_mult : ℚ) : ℝ) * ((a : ℚ) : ℝ))) ∧
    (((rolling_atr aH aL aC P.stop_lookback).getD i none = none ∨
        (∃ a : ℚ, (rolling_atr aH aL aC P.stop_lookback).getD i none = some a ∧ ¬0 < a)) →
      (0 < i → ∀ sd : ℝ,
        (rolling_std (dailyRets aC) P.stop_lookback).getD (i - 1) none = some sd →
        (signalAt P aC aH aL bC i).stop_level
          = some (((aC.getD i 0 : ℚ) : ℝ) * (1 - ((P.vol_mult : ℚ) : ℝ) * sd))) ∧
      ((i = 0 ∨ (rolling_std (dailyRets aC) P.stop_lookback).getD (i - 1) none = none) →
        (signalAt P aC aH aL bC i).stop_level = none)) := by
  simp only [signalAt_stop_level]
  constructor
  · intro a ha hpos
    rw [stopAt, ha]
    simp [Option.filter, hpos]
  · intro hatr
    constructor
    · intro hipos sd hsd
      rw [stopAt]
      rcases hatr with h | ⟨a, ha, hnpos⟩
      · rw [h, hsd]
        simp [Option.filter, Option.orElse, hipos]
      · rw [ha, hsd]
        simp [Option.filter, Option.orElse, hnpos, hipos]
    · intro hz
      rw [stopAt]
      rcases hatr with h | ⟨a, ha, hnpos⟩ <;> rcases hz with hz | hz
      · subst hz
        rw [h]
        simp [Option.filter, Option.orElse]
      · rw [h, hz]
        simp [Option.filter, Option.orElse]
      · subst hz
        rw [ha]
        simp [Option.filter, Option.orElse, hnpos]
      · rw [ha, hz]
        simp [Option.filter, Option.orElse, hnpos]

/-- Parameters with stop_lookback = 1, used by the C5 and C10 witnesses. -/
def cexPatr : Params := ⟨1, 2, 2, false, 3 / 10, 1, 3, 5 / 2⟩

/-- Witness for C5: a two-day series with high/low present, lookback 1, so the ATR at
day 0 is |3 - 1| = 2 > 0 and the stop is close - atr_mult * ATR = 2 - 3 * 2. -/
theorem claim_C5_stop_level_witness :
    (signalAt cexPatr [2, 4] [some 3, some 5] [some 1, some 3] [1, 1] 0).stop_level
      = some ((-4 : ℝ)) := by
  have hatr : (rolling_atr [some 3, some 5] [some 1, some 3] [2, 4]
      cexPatr.stop_lookback).getD 0 none = some 2 := by
    norm_num [rolling_atr, getD_map_range, trueRangeAt, true_range, List.range', cexPatr]
  have h := (claim_C5_stop_level cexPatr [2, 4] [some 3, some 5] [some 1, some 3]
    [1, 1] 0).1 2 hatr (by norm_num)
  norm_num [cexPatr] at h
  exact h

/-! ## Claim C10: day-0 true range and the discarded zero ATR -/

/-- C10: the day-0 true range is |high_0 - low_0| when both are present and the literal
0 when either is absent; with a window of 1 the day-0 ATR is then Some 0, which the
stop-level computation discards through its ATR > 0 filter (no stop at day 0). -/
theorem claim_C10_atr_day0 (high low : List (Option ℚ)) (close : List ℚ) (P : Params)
    (hlen : 0 < close.length) :
    (∀ hv lv, high.getD 0 none = some hv → low.getD 0 none = some lv →
      trueRangeAt high low close 0 = |hv - lv|) ∧
    ((high.getD 0 none = none ∨ low.getD 0 none = none) →
      trueRangeAt high low close 0 = 0 ∧
      (P.stop_lookback = 1 →
        (rolling_atr high low close P.stop_lookback).getD 0 none = some 0 ∧
        stopAt P close high low 0 = none)) := by
  constructor
  · intro hv lv h1 h2
    rw [List.getD_eq_getElem?_getD] at h1 h2
    simp [trueRangeAt, h1, h2]
  · intro hmiss
    have htr0 : trueRangeAt high low close 0 = 0 := by
      rcases hmiss with h | h
      · rw [List.getD_eq_getElem?_getD] at h
        simp [trueRangeAt, h]
      · rw [List.getD_eq_getElem?_getD] at h
        rcases hh : high[0]?.getD none with _ | hv
        · simp [trueRangeAt, hh]
        · simp [trueRangeAt, hh, h]
    refine ⟨htr0, fun hw => ?_⟩
    have hatr : (rolling_atr high low close P.stop_lookback).getD 0 none = some 0 := by
      rw [hw, rolling_atr, getD_map_range, if_pos hlen, if_pos (by norm_num)]
      simp [List.range', htr0]
    refine ⟨hatr, ?_⟩
    rw [stopAt, hatr]
    simp [Option.filter, Option.orElse]

/-- Witness for C10: one day, no high/low, lookback 1. -/
theorem claim_C10_atr_day0_witness :
    trueRangeAt [none] [none] [5] 0 = 0 ∧
    (rolling_atr [none] [none] [5] cexPatr.stop_lookback).getD 0 none = some 0 ∧
    stopAt cexPatr [5] [none] [none] 0 = none := by
  have h := (claim_C10_atr_day0 [none] [none] [5] cexPatr (by norm_num)).2 (Or.inl rfl)
  exact ⟨h.1, (h.2 rfl).1, (h.2 rfl).2⟩

/-! ## Evaluation of the concrete 13-day run -/

theorem cexSigs_getD (j : ℕ) (hj : j < 13) :
    cexSigs.getD j default = signalAt cexP cexAsset cexHigh cexLow cexBtc j := by
  rw [cexSigs]
  exact signalsFor_getD _ _ _ _ _ j (by simpa [cexAsset] using hj)

theorem cexSigs_stop (j : ℕ) (hj : j < 13) : (cexSigs.getD j default).stop_level = none := by
  rw [cexSigs_getD j hj, signalAt_stop_level]
  apply stopAt_none_small
  show j + 1 < 14
  omega

set_option maxHeartbeats 3200000 in
theorem cexRaw_flat : ∀ j, j ≤ 9 → rawWeightAt cexP cexAsset cexBtc j = 0 := by
  intro j hj
  interval_cases j <;>
    norm_num [rawWeightAt, scoreAt, trendBullAt, momBullAt, rsBullAt, rsLine, rolling_ma,
      getD_map_range, maSum, cexP, cexAsset, cexBtc]

theorem cexRaw10 : rawWeightAt cexP cexAsset cexBtc 10 = 1 := by
  norm_num [rawWeightAt, scoreAt, trendBullAt, momBullAt, rsBullAt, rsLine, rolling_ma,
    getD_map_range, maSum, cexP, cexAsset, cexBtc]

theorem cexRaw11 : rawWeightAt cexP cexAsset cexBtc 11 = 1 := by
  norm_num [rawWeightAt, scoreAt, trendBullAt, momBullAt, rsBullAt, rsLine, rolling_ma,
    getD_map_range, maSum, cexP, cexAsset, cexBtc]

theorem cexBear9 : btcBear cexP cexBtc 9 = true := by
  norm_num [btcBear, rolling_ma, getD_map_range, maSum, cexP, cexBtc]

set_option maxHeartbeats 3200000 in
theorem cexBearNot : ∀ j, j ≤ 11 → j ≠ 9 → btcBear cexP cexBtc j = false := by
  intro j h1 h2
  interval_cases j
  all_goals first
    | exact absurd rfl h2
    | norm_num [btcBear, rolling_ma, getD_map_range, maSum, cexP, cexBtc]

theorem cexEff (i : ℕ) (h1 : 1 ≤ i) (h2 : i ≤ 12) :
    effWeight cexSigs i = max (rawWeightAt cexP cexAsset cexBtc (i - 1)) 0 := by
  rw [effWeight_of_stop_none cexSigs i (cexSigs_stop (i - 1) (by omega))]
  rw [cexSigs_getD (i - 1) (by omega), signalAt_raw_weight]

theorem cexEff_le10 : ∀ i, 1 ≤ i → i ≤ 10 → effWeight cexSigs i = 0 := by
  intro i h1 h2
  rw [cexEff i h1 (by omega), cexRaw_flat (i - 1) (by omega)]
  simp

theorem cexEff11 : effWeight cexSigs 11 = 1 := by
  rw [cexEff 11 (by norm_num) (by norm_num)]
  rw [show (11 : ℕ) - 1 = 10 from rfl, cexRaw10]
  exact max_eq_left (by norm_num)

theorem cexEff12 : effWeight cexSigs 12 = 1 := by
  rw [cexEff 12 (by norm_num) (by norm_num)]
  rw [show (12 : ℕ) - 1 = 11 from rfl, cexRaw11]
  exact max_eq_left (by norm_num)

theorem cexWeights_le10 (i : ℕ) (h1 : 1 ≤ i) (h2 : i ≤ 10) : weightsAt [cexSigs] i = [] := by
  have he := cexEff_le10 i h1 h2
  have hl : longsAt [cexSigs] i = [] := by
    simp [longsAt, he]
  rw [weightsAt, longSum, hl]
  simp

theorem cexWeights11 : weightsAt [cexSigs] 11 = [(cexSigs, 1)] := by
  have hl : longsAt [cexSigs] 11 = [(cexSigs, 1)] := by
    simp [longsAt, cexEff11]
  have hs : longSum [cexSigs] 11 = 1 := by
    rw [longSum, hl]
    simp
  rw [weightsAt, hs, hl]
  norm_num

theorem cexWeights12 : weightsAt [cexSigs] 12 = [(cexSigs, 1)] := by
  have hl : longsAt [cexSigs] 12 = [(cexSigs, 1)] := by
    simp [longsAt, cexEff12]
  have hs : longSum [cexSigs] 12 = 1 := by
    rw [longSum, hl]
    simp
  rw [weightsAt, hs, hl]
  norm_num

theorem cexAssetRet (i : ℕ) (h1 : 1 ≤ i) (h2 : i ≤ 12) :
    assetRet cexSigs i
      = (cexAsset.getD i 0 - cexAsset.getD (i - 1) 0) / cexAsset.getD (i - 1) 0 := by
  rw [assetRet, cexSigs_getD i (by omega), cexSigs_getD (i - 1) (by omega)]
  simp

theorem cexPort_le9 (i : ℕ) (h1 : 1 ≤ i) (h2 : i ≤ 9) :
    portRet cexP cexBtc [cexSigs] i = 0 := by
  rw [portRet, cexWeights_le10 i h1 (by omega), hedgeRet,
    cexBearNot (i - 1) (by omega) (by omega)]
  simp

theorem cexPort10 : portRet cexP cexBtc [cexSigs] 10 = -(3 / 2) := by
  rw [portRet, cexWeights_le10 10 (by norm_num) le_rfl, hedgeRet,
    show (10 : ℕ) - 1 = 9 from rfl, cexBear9]
  norm_num [cexP, cexBtc]

theorem cexPort11 : portRet cexP cexBtc [cexSigs] 11 = 1 / 7 := by
  rw [portRet, cexWeights11, hedgeRet, show (11 : ℕ) - 1 = 10 from rfl,
    cexBearNot 10 (by norm_num) (by norm_num)]
  rw [List.map_cons, List.map_nil, List.sum_cons, List.sum_nil,
    cexAssetRet 11 (by norm_num) (by norm_num)]
  norm_num [cexAsset]

theorem cexPort12 : portRet cexP cexBtc [cexSigs] 12 = 1 / 8 := by
  rw [portRet, cexWeights12, hedgeRet, show (12 : ℕ) - 1 = 11 from rfl,
    cexBearNot 11 (by norm_num) (by norm_num)]
  rw [List.map_cons, List.map_nil, List.sum_cons, List.sum_nil,
    cexAssetRet 12 (by norm_num) (by norm_num)]
  norm_num [cexAsset]

theorem cexEquity_flat : ∀ k, k ≤ 9 → equity cexP cexBtc [cexSigs] k = 1 := by
  intro k
  induction k with
  | zero => intro _; rfl
  | succ n ih =>
      intro hk
      have hstep : equity cexP cexBtc [cexSigs] (n + 1)
          = equity cexP cexBtc [cexSigs] n * (1 + portRet cexP cexBtc [cexSigs] (n + 1)) := rfl
      rw [hstep, ih (by omega), cexPort_le9 (n + 1) (by omega) (by omega)]
      norm_num

theorem cexEquity11 : equity cexP cexBtc [cexSigs] 11 = -(4 / 7) := by
  have h10 : equity cexP cexBtc [cexSigs] 10
      = equity cexP cexBtc [cexSigs] 9 * (1 + portRet cexP cexBtc [cexSigs] 10) := rfl
  have h11 : equity cexP cexBtc [cexSigs] 11
      = equity cexP cexBtc [cexSigs] 10 * (1 + portRet cexP cexBtc [cexSigs] 11) := rfl
  rw [h11, h10, cexEquity_flat 9 (by norm_num), cexPort10, cexPort11]
  norm_num

theorem cexEquity12 : equity cexP cexBtc [cexSigs] 12 = -(9 / 14) := by
  have h12 : equity cexP cexBtc [cexSigs] 12
      = equity cexP cexBtc [cexSigs] 11 * (1 + portRet cexP cexBtc [cexSigs] 12) := rfl
  rw [h12, cexEquity11, cexPort12]
  norm_num

/-- Counterexample to C3 as stated: in the concrete 13-day run, days 11 and 12 form a
contiguous stretch whose daily portfolio returns are 1/7 and 1/8, both non-negative,
yet equity decreases from -4/7 to -9/14, because day 10's hedge return of -3/2 (BTC
up 5x against an active short hedge) had already driven equity below zero. -/
theorem claim_C3_equity_counterexample :
    0 ≤ portRet cexP cexBtc [cexSigs] 11 ∧ 0 ≤ portRet cexP cexBtc [cexSigs] 12 ∧
    equity cexP cexBtc [cexSigs] 12 < equity cexP cexBtc [cexSigs] 11 := by
  refine ⟨?_, ?_, ?_⟩
  · rw [cexPort11]
    norm_num
  · rw [cexPort12]
    norm_num
  · rw [cexEquity11, cexEquity12]
    norm_num

end CryptoStrategy
